import Mathlib

/-!
Verification of the agent-gate approval broker.

This file gives a shallow embedding, in Lean 4, of the core logic of the
agent-gate daemon (src/daemon.js in the repository), its Unix-socket
transport (src/lib/socket.js) and its cache / registry / poller
components, and proves properties of that embedding.

Modelling conventions:
* JavaScript strings are Lean `String`s; JS falsiness of a string is
  `String.isEmpty`, and an optional argument is `Option String` with
  `none` for `undefined`. The JS string methods `startsWith`, `endsWith`,
  `slice(0, -1)` and `toLowerCase` are modelled by executable helpers over
  the character list of the string, so concrete instances evaluate.
* JS `Map` objects are association lists with unique keys; `Map.get` is
  `List.lookup`, `Map.delete` removes the key, `Map.set` replaces it.
* `Date.now()` and cache expiry instants are `Int` milliseconds.
* Side effects (audit writes, provider invocations, channel calls, timer
  and file operations) are reified as an ordered trace of events returned
  alongside each function's result.
* Arbitrary JSON values arriving from callers are modelled by `JSValue`
  (numbers as `Int`; JS `NaN` is not representable, which no theorem here
  depends on), with JS truthiness as `JSValue.truthy`.
-/

namespace AgentGate

/-! ## String helpers (JS string methods) -/

/-- JS `pre` is a prefix of `s` (`s.startsWith(pre)`), over character
lists so that concrete instances reduce. -/
def strStartsWith (s pre : String) : Bool := pre.data.isPrefixOf s.data

/-- JS `s.endsWith(suf)`, over character lists. -/
def strEndsWith (s suf : String) : Bool := suf.data.isSuffixOf s.data

/-- JS `s.slice(0, -1)`: the string without its final character. -/
def strDropLast (s : String) : String := ⟨s.data.dropLast⟩

/-- Lower-casing of one character (ASCII letters A-Z), as JS
`toLowerCase` acts on the vault names appearing in this development. -/
def charLower (c : Char) : Char :=
  if 65 ≤ c.toNat ∧ c.toNat ≤ 90 then Char.ofNat (c.toNat + 32) else c

/-- JS `s.toLowerCase()`, over character lists. -/
def strToLower (s : String) : String := ⟨s.data.map charLower⟩

/-! ## Standing-approval matcher -/

/-- A standing-approval rule from the configuration
(`config.standingApprovals` entries in daemon.js). -/
structure Rule where
  item : String
  reasonMatch : String
  note : String
deriving Repr, DecidableEq

/-- The loop body of `matchesStandingApproval` (daemon.js): scan rules in
configuration order; skip rules whose `item` differs; for a pattern
ending in `*` do a prefix test of the pattern minus its final character
against the reason, otherwise an exact equality test. -/
def scanRules (item : String) (reason : String) : List Rule → Option Rule
  | [] => none
  | sa :: rest =>
    if sa.item ≠ item then scanRules item reason rest
    else if strEndsWith sa.reasonMatch "*" then
      if strStartsWith reason (strDropLast sa.reasonMatch) then some sa
      else scanRules item reason rest
    else if sa.reasonMatch = reason then some sa
    else scanRules item reason rest

/-- `matchesStandingApproval(item, reason)` from daemon.js: an empty
(falsy) reason never matches; otherwise the rule list is scanned in
configuration order and the first match wins. -/
def matchesStandingApproval (rules : List Rule) (item : String) (reason : String) :
    Option Rule :=
  if reason.isEmpty then none else scanRules item reason rules

/-- Specification-level predicate for a single rule matching an
(item, reason) pair: the rule's item equals the request item, and the
reason pattern matches exactly, or as a prefix when the pattern ends in
`*`. -/
def ruleMatches (item : String) (reason : String) (sa : Rule) : Bool :=
  sa.item == item &&
    (if strEndsWith sa.reasonMatch "*" then
      strStartsWith reason (strDropLast sa.reasonMatch)
    else sa.reasonMatch == reason)

/-! ## Value cache -/

/-- One entry of the daemon's in-memory value cache: the secret value and
its absolute expiry instant. -/
structure CacheEntry where
  value : String
  expiresAt : Int
deriving Repr, DecidableEq

/-- The cache `Map` of daemon.js: uri keys to cache entries, with unique
keys. -/
abbrev Cache := List (String × CacheEntry)

/-- JS `Map.delete(uri)` on the cache association list. -/
def cacheDelete (c : Cache) (uri : String) : Cache :=
  c.filter (fun kv => kv.1 ≠ uri)

/-- `getCached(uri)` from daemon.js. Returns the cached value (or none)
together with the cache state after the lazy eviction of an expired
entry. A non-positive configured TTL disables the lookup entirely. -/
def getCached (cacheTTL : Int) (c : Cache) (now : Int) (uri : String) :
    Option String × Cache :=
  if cacheTTL ≤ 0 then (none, c)
  else
    match c.lookup uri with
    | none => (none, c)
    | some e => if now > e.expiresAt then (none, cacheDelete c uri) else (some e.value, c)

/-- `setCache(uri, value)` from daemon.js: a no-op for a non-positive
TTL, otherwise `Map.set` of an entry expiring at `now + cacheTTL`. -/
def setCache (cacheTTL : Int) (c : Cache) (now : Int) (uri value : String) : Cache :=
  if cacheTTL ≤ 0 then c
  else cacheDelete c uri ++ [(uri, ⟨value, now + cacheTTL⟩)]

/-! ## JS values and truthiness -/

/-- A JSON / JavaScript value as it can arrive in a callback body.
Numbers are modelled as integers. -/
inductive JSValue
  | undef
  | null
  | bool (b : Bool)
  | num (n : Int)
  | str (s : String)
deriving Repr, DecidableEq

/-- JS truthiness: `undefined`, `null`, `false`, `0` and the empty string
are falsy; everything else is truthy. `!!v` in JS is `v.truthy` here. -/
def JSValue.truthy : JSValue → Bool
  | .undef => false
  | .null => false
  | .bool b => b
  | .num n => !(n == 0)
  | .str s => !s.isEmpty

/-! ## Pending-request registry -/

/-- One entry of the `pendingRequests` map in daemon.js. The JS entry
holds a promise resolver, a timeout timer and a poll interval; here the
resolver is identified by an opaque tag and the timer / interval handles
are implicit in the emitted events. -/
structure PendingEntry where
  resolverTag : Nat
deriving Repr, DecidableEq

/-- The `pendingRequests` map: request id to pending entry. -/
abbrev Registry := List (String × PendingEntry)

/-- JS `Map.delete(id)` on the registry association list. -/
def regDelete (reg : Registry) (id : String) : Registry :=
  reg.filter (fun kv => kv.1 ≠ id)

/-- Observable effects of the registry, callback and poller code paths of
daemon.js, in program order. -/
inductive RegEvent
  | readFile (name : String)
  | unlinkFile (name : String)
  | clearTimer (id : String)
  | clearPoll (id : String)
  | removeEntry (id : String)
  | fireResolver (id : String) (approved : Bool)
deriving Repr, DecidableEq

/-- `cleanup(requestId)` from daemon.js: if the id is pending, clear its
timer and poll interval, delete the registry entry, and attempt to unlink
its pending-drop file. -/
def cleanup (reg : Registry) (id : String) : Registry × List RegEvent :=
  match reg.lookup id with
  | none => (reg, [])
  | some _ =>
      (regDelete reg id,
        [.clearTimer id, .clearPoll id, .removeEntry id,
         .unlinkFile (id ++ ".json")])

/-- `resolveApproval(requestId, approved)` from daemon.js: if the id is
not pending, return false with no effect; otherwise run `cleanup` first
and only then fire the entry's one-shot resolver with `!!approved`. -/
def resolveApproval (reg : Registry) (id : String) (approved : JSValue) :
    Bool × Registry × List RegEvent :=
  match reg.lookup id with
  | none => (false, reg, [])
  | some _ =>
      let (reg', evs) := cleanup reg id
      (true, reg', evs ++ [.fireResolver id approved.truthy])

/-- The parsed body of a POST to `/callback`: the `requestId` and
`approved` fields of the JSON object (`approved` is `undef` when the
field is absent). -/
structure CallbackBody where
  requestId : String
  approved : JSValue
deriving Repr, DecidableEq

/-- An HTTP response of the callback server, reduced to what the
handlers write: 200 with an `ok`/`resolved` JSON body, or 400 with an
error body. -/
inductive HttpResponse
  | okResolved (resolved : Bool)
  | badRequest (msg : String)
deriving Repr, DecidableEq

/-- The `/callback` route of `startHttpServer` in daemon.js. `none`
stands for a body that fails `JSON.parse`. A falsy (empty) `requestId` is
a 400; otherwise the request is delegated to `resolveApproval` and the
response always reports `ok: true` with the boolean it returned. -/
def handleCallback (reg : Registry) (body : Option CallbackBody) :
    HttpResponse × Registry × List RegEvent :=
  match body with
  | none => (.badRequest "Invalid JSON", reg, [])
  | some data =>
      if data.requestId.isEmpty then (.badRequest "Missing requestId", reg, [])
      else
        let (resolved, reg', evs) := resolveApproval reg data.requestId data.approved
        (.okResolved resolved, reg', evs)

/-! ## Filesystem callback poller -/

/-- The pending-drop directory: file name to content. The content is the
`approved` field of the parsed JSON object, or `none` for a file on which
`JSON.parse` (or the read) throws. -/
abbrev FileSys := List (String × Option JSValue)

/-- Removal of a file from the drop directory (`fs.unlinkSync`). -/
def fsDelete (fsys : FileSys) (name : String) : FileSys :=
  fsys.filter (fun kv => kv.1 ≠ name)

/-- One tick of the poll interval that `waitForApproval` in daemon.js
registers for a pending request id: if `<id>.json` exists, read and parse
it, unlink it, clear the interval, and call `resolveApproval`; a file
that fails to parse is left in place (the `catch` swallows the error
before the unlink); no other file is touched. -/
def pollTick (fsys : FileSys) (reg : Registry) (id : String) :
    FileSys × Registry × List RegEvent :=
  let name := id ++ ".json"
  match fsys.lookup name with
  | none => (fsys, reg, [])
  | some none => (fsys, reg, [.readFile name])
  | some (some v) =>
      let fs' := fsDelete fsys name
      let (_, reg', evs) := resolveApproval reg id v
      (fs', reg', [.readFile name, .unlinkFile name, .clearPoll id] ++ evs)

/-- One scan round of the drop directory: the poll tick of every
currently pending id, in registry order (each pending request owns one
interval; a scan is the collection of their ticks). -/
def scanPending (fsys : FileSys) (reg : Registry) : List String → FileSys × Registry × List RegEvent
  | [] => (fsys, reg, [])
  | id :: rest =>
      let (fs1, reg1, evs1) := pollTick fsys reg id
      let (fs2, reg2, evs2) := scanPending fs1 reg1 rest
      (fs2, reg2, evs1 ++ evs2)

/-! ## Request orchestrator (`handleRead`) -/

/-- The triple a provider's `parseUri` extracts from a secret reference
(for the 1Password provider, `op://Vault/Item/Field`). -/
structure ParsedUri where
  vault : String
  item : String
  field : String
deriving Repr, DecidableEq

/-- The outcome of one `provider.read` invocation: the value, or the
message of the thrown error. -/
inductive FetchResult
  | ok (value : String)
  | err (msg : String)
deriving Repr, DecidableEq

/-- The outcome of `waitForApproval`: the promise resolves with the
operator's boolean, or rejects with a timeout error message. -/
inductive ApprovalOutcome
  | resolved (approved : Bool)
  | timedOut (msg : String)
deriving Repr, DecidableEq

/-- The audit actions `handleRead` can emit, named by the `action` /
`result` fields of the corresponding `audit.log` calls in daemon.js. -/
inductive AuditTag
  | openAllowed
  | readError
  | standingApproval
  | standingApprovedRead
  | cacheHit
  | requestPending
  | channelError
  | approved
  | denied
  | approvedRead
  | timedOut
deriving Repr, DecidableEq

/-- Observable effects of one `handleRead` call, in program order. -/
inductive Event
  | audit (tag : AuditTag)
  | providerRead (elevated : Bool)
  | channelSend (idx : Nat)
  | channelUpdate (idx : Nat) (approved : Bool)
deriving Repr, DecidableEq

/-- The environment resolving the asynchronous interactions of one
`handleRead` call: the provider's parse of the uri, the provider's read
result as a function of the `useServiceAccount` flag, the per-channel
success of `sendApprovalRequest` (one entry per configured channel), and
the resolution of the approval wait. -/
structure ReadEnv where
  parsed : Option ParsedUri
  fetch : Bool → FetchResult
  channelSends : List Bool
  approval : ApprovalOutcome

/-- A JSON response of the daemon to a `read` request: a `value` object
or an `error` object. -/
inductive Response
  | value (v : String)
  | error (e : String)
deriving Repr, DecidableEq

/-- Result of one `handleRead` call: the response, the event trace, and
the cache state afterwards. -/
structure ReadOutcome where
  response : Response
  events : List Event
  cache : Cache
deriving Repr, DecidableEq

/-- Membership of a (lower-cased) vault name in one of the configured
vault sets: `OPEN_VAULTS` / `GATED_VAULTS` in daemon.js are sets of the
lower-cased configured names. -/
def vaultSetHas (vaults : List String) (v : String) : Bool :=
  (vaults.map strToLower).contains v

/-- Broker configuration, restricted to the fields `handleRead` reads. -/
structure Config where
  openVaults : List String
  gatedVaults : List String
  standingApprovals : List Rule
  cacheTTL : Int

/-- JS falsiness of the optional `reason` request field: absent or the
empty string. -/
def reasonFalsy (reason : Option String) : Bool :=
  (reason.getD "").isEmpty

/-- Events of the channel fan-out loop of `handleRead`: for the channel
at each index, a successful `sendApprovalRequest` is a send event, a
failed one a `channel_error` audit event. -/
def sendEvents (i : Nat) : List Bool → List Event
  | [] => []
  | ok :: rest =>
      (if ok then Event.channelSend i else Event.audit .channelError) ::
        sendEvents (i + 1) rest

/-- The `messageRefs` the fan-out loop collects: the indices of the
channels whose `sendApprovalRequest` succeeded. -/
def sendRefs (i : Nat) : List Bool → List Nat
  | [] => []
  | ok :: rest =>
      if ok then i :: sendRefs (i + 1) rest else sendRefs (i + 1) rest

/-- The open-vault branch of `handleRead` (daemon.js): audit
`read/open/allowed`, invoke `provider.read(uri)` with no options (the
elevated flag unset), return the value or audit `read_error` and return
the failure message. -/
def openRead (env : ReadEnv) (cache : Cache) : ReadOutcome :=
  match env.fetch false with
  | .ok v => ⟨.value v, [.audit .openAllowed, .providerRead false], cache⟩
  | .err m =>
      ⟨.error m, [.audit .openAllowed, .providerRead false, .audit .readError], cache⟩

/-- The standing-approval branch of `handleRead`: audit
`standing_approval`, invoke `provider.read(uri, useServiceAccount:
true)`, and on success audit `standing_approved_read` and return the
value, on failure audit `read_error` and return the message. -/
def standingRead (env : ReadEnv) (cache : Cache) : ReadOutcome :=
  match env.fetch true with
  | .ok v =>
      ⟨.value v,
        [.audit .standingApproval, .providerRead true,
         .audit .standingApprovedRead], cache⟩
  | .err m =>
      ⟨.error m,
        [.audit .standingApproval, .providerRead true, .audit .readError], cache⟩

/-- The approval path of `handleRead`, entered after standing approvals
and the cache both miss: audit `request/pending`, fan the prompt out to
all channels, fail if channels are configured but none accepted, then
wait for the approval resolution and act on it (`cache1` is the cache
state after the preceding lookup). -/
def approvalPath (cfg : Config) (cache1 : Cache) (now : Int) (env : ReadEnv)
    (uri : String) : ReadOutcome :=
  let evs0 := Event.audit .requestPending :: sendEvents 0 env.channelSends
  let refs := sendRefs 0 env.channelSends
  if refs.isEmpty && !env.channelSends.isEmpty then
    ⟨.error "Failed to send approval request to any channel", evs0, cache1⟩
  else
    match env.approval with
    | .resolved true =>
        let upd := refs.map (fun i => Event.channelUpdate i true)
        (match env.fetch true with
         | .ok v =>
             ⟨.value v,
               evs0 ++ upd ++
                 [.audit .approved, .providerRead true, .audit .approvedRead],
               setCache cfg.cacheTTL cache1 now uri v⟩
         | .err m =>
             ⟨.error m,
               evs0 ++ upd ++
                 [.audit .approved, .providerRead true, .audit .readError],
               cache1⟩)
    | .resolved false =>
        let upd := refs.map (fun i => Event.channelUpdate i false)
        ⟨.error "Request denied by operator",
          evs0 ++ upd ++ [.audit .denied], cache1⟩
    | .timedOut msg =>
        let upd := refs.map (fun i => Event.channelUpdate i false)
        ⟨.error msg, evs0 ++ upd ++ [.audit .timedOut], cache1⟩

/-- The gated-vault branch of `handleRead`: require a truthy reason,
then try standing approvals, then the cache, then the approval path. -/
def gatedRead (cfg : Config) (cache : Cache) (now : Int) (env : ReadEnv)
    (uri : String) (reason : Option String) (p : ParsedUri) : ReadOutcome :=
  if reasonFalsy reason then
    ⟨.error "Reason is REQUIRED for gated vault items. Pass --reason \"...\"",
      [], cache⟩
  else
    match matchesStandingApproval cfg.standingApprovals p.item (reason.getD "") with
    | some _ => standingRead env cache
    | none =>
        match getCached cfg.cacheTTL cache now uri with
        | (some v, cache1) => ⟨.value v, [.audit .cacheHit], cache1⟩
        | (none, cache1) => approvalPath cfg cache1 now env uri

/-- `handleRead(request)` from daemon.js, as a function of the
configuration, the cache state, the current time, the environment and
the request fields. Follows the source's decision order: missing uri,
unparsable uri, open vault, gated vault (reason check, standing
approvals, cache, approval path), unknown vault. -/
def handleRead (cfg : Config) (cache : Cache) (now : Int) (env : ReadEnv)
    (uri : String) (reason : Option String) : ReadOutcome :=
  if uri.isEmpty then ⟨.error "Missing \"uri\" field", [], cache⟩
  else
    match env.parsed with
    | none => ⟨.error ("Invalid URI: " ++ uri), [], cache⟩
    | some p =>
        let vaultLower := strToLower p.vault
        if vaultSetHas cfg.openVaults vaultLower then openRead env cache
        else if vaultSetHas cfg.gatedVaults vaultLower then
          gatedRead cfg cache now env uri reason p
        else
          ⟨.error ("Vault \"" ++ p.vault ++ "\" is not configured as open or gated"),
            [], cache⟩

/-! ## Action dispatch and the `status` response -/

/-- A JSON field value in a daemon response object. -/
inductive JField
  | str (s : String)
  | num (n : Nat)
  | arr (l : List String)
deriving Repr, DecidableEq

/-- The daemon state that the `ping` and `status` actions report. -/
structure DaemonCtx where
  pending : Nat
  cacheSize : Nat
  uptime : Nat
  channelNames : List String
  providerName : String

/-- The object literal returned by the `status` case of `handleRequest`
in daemon.js, field by field in source order. -/
def statusFields (ctx : DaemonCtx) : List (String × JField) :=
  [("status", .str "running"),
   ("pending", .num ctx.pending),
   ("cacheSize", .num ctx.cacheSize),
   ("uptime", .num ctx.uptime),
   ("channels", .arr ctx.channelNames),
   ("provider", .str ctx.providerName)]

/-- Result of the action dispatch: the `read` case delegates to
`handleRead` (modelled separately above); the other cases return a JSON
object directly. -/
inductive ActionResult
  | delegatedRead
  | obj (fields : List (String × JField))
deriving Repr, DecidableEq

/-- The `switch (request.action)` dispatch of `handleRequest` in
daemon.js. -/
def handleRequest (ctx : DaemonCtx) (action : String) : ActionResult :=
  if action == "read" then .delegatedRead
  else if action == "ping" then
    .obj [("status", .str "ok"), ("pending", .num ctx.pending)]
  else if action == "status" then .obj (statusFields ctx)
  else .obj [("error", .str ("Unknown action: " ++ action))]

/-! ## Local transport: per-connection response order

`SocketServer._onConnection` in src/lib/socket.js dispatches the handler
for each framed request line in arrival order, but writes each response
inside the `.then` callback of that handler's promise — that is, at the
moment the handler completes, not at dispatch. The model below assigns
request `i` a completion tick `ds[i]` (the number of event-loop ticks
until its handler's promise resolves) and computes the order in which
the responses are written: a response is written after every response
whose completion tick is strictly smaller, and after an earlier-dispatched
response with the same tick (promise callbacks registered earlier in the
same tick run first). -/

/-- Insert the (later-dispatched) request index `i` into the write order
`acc`: it is written after every already-placed response that completes
no later than it. -/
def insertByDone (ds : List Nat) (i : Nat) : List Nat → List Nat
  | [] => [i]
  | j :: rest =>
      if ds.getD j 0 ≤ ds.getD i 0 then j :: insertByDone ds i rest
      else i :: j :: rest

/-- The order in which `_onConnection` writes the responses of requests
`0 .. ds.length - 1` (dispatched in that order), where request `i`'s
handler completes at tick `ds[i]`. -/
def responseOrder (ds : List Nat) : List Nat :=
  (List.range ds.length).foldl (fun acc i => insertByDone ds i acc) []

/-- The non-send events an approval-path trace can additionally contain
(used to characterise traces). -/
def apTail : List Event :=
  [.audit .approved, .providerRead true, .audit .approvedRead,
   .audit .readError, .audit .denied, .audit .timedOut]

/-- The number of resolver firings in a registry event trace. -/
def countFires (evs : List RegEvent) : Nat :=
  (evs.filter (fun e => match e with | .fireResolver _ _ => true | _ => false)).length

/-! ## Helper lemmas -/

theorem scanRules_eq_find (item reason : String) (rules : List Rule) :
    scanRules item reason rules = rules.find? (ruleMatches item reason) := by
  induction rules with
  | nil => rfl
  | cons sa rest ih =>
    simp only [scanRules, ruleMatches, List.find?]
    by_cases hit : sa.item = item
    · simp only [hit, ne_eq, not_true_eq_false, if_false, beq_self_eq_true, Bool.true_and]
      by_cases hstar : strEndsWith sa.reasonMatch "*"
      · simp only [hstar, if_true]
        by_cases hpre : strStartsWith reason (strDropLast sa.reasonMatch)
        · simp [hpre]
        · simp [hpre, ih]
      · simp only [hstar, Bool.false_eq_true, if_false]
        by_cases heq : sa.reasonMatch = reason
        · simp [heq]
        · have hb : (sa.reasonMatch == reason) = false := by simpa using heq
          simp [heq, hb, ih]
    · have hb : (sa.item == item) = false := by simpa using hit
      simp [hit, hb, ih]

theorem lookup_filter_self {α : Type} (l : List (String × α)) (k : String) :
    (l.filter (fun kv => kv.1 ≠ k)).lookup k = none := by
  induction l with
  | nil => rfl
  | cons kv rest ih =>
    rw [List.filter_cons]
    by_cases h : kv.1 = k
    · rw [if_neg (by simp [h])]
      exact ih
    · rw [if_pos (by simp [h])]
      obtain ⟨k1, v1⟩ := kv
      rw [List.lookup_cons]
      have hb : (k == k1) = false := by
        simp only [beq_eq_false_iff_ne, ne_eq]
        exact fun he => h (by simpa using he.symm)
      rw [hb]
      exact ih

theorem lookup_filter_other {α : Type} (l : List (String × α)) (k x : String)
    (hx : x ≠ k) :
    (l.filter (fun kv => kv.1 ≠ k)).lookup x = l.lookup x := by
  induction l with
  | nil => rfl
  | cons kv rest ih =>
    rw [List.filter_cons]
    obtain ⟨k1, v1⟩ := kv
    by_cases h : k1 = k
    · rw [if_neg (by simp [h])]
      have hb : (x == k1) = false := by
        simp only [beq_eq_false_iff_ne, ne_eq]
        intro he; exact hx (he.trans h)
      rw [List.lookup_cons, hb]
      exact ih
    · rw [if_pos (by simp [h]), List.lookup_cons, List.lookup_cons]
      cases hxk : (x == k1) with
      | true => rfl
      | false => exact ih

theorem sendEvents_forms (flags : List Bool) :
    ∀ i, ∀ e ∈ sendEvents i flags,
      (∃ j, e = .channelSend j) ∨ e = .audit .channelError := by
  induction flags with
  | nil => intro i e he; simp [sendEvents] at he
  | cons ok rest ih =>
    intro i e he
    simp only [sendEvents, List.mem_cons] at he
    rcases he with he | he
    · cases ok with
      | true => exact Or.inl ⟨i, by simpa using he⟩
      | false => exact Or.inr (by simpa using he)
    · exact ih (i + 1) e he


theorem sendEvents_no_providerRead (flags : List Bool) (i : Nat) (b : Bool) :
    Event.providerRead b ∉ sendEvents i flags := by
  intro h
  rcases sendEvents_forms flags i _ h with ⟨j, hj⟩ | hj <;> simp at hj

theorem sendEvents_no_cacheHit (flags : List Bool) (i : Nat) :
    Event.audit .cacheHit ∉ sendEvents i flags := by
  intro h
  rcases sendEvents_forms flags i _ h with ⟨j, hj⟩ | hj <;> simp at hj

theorem approvalPath_forms (cfg : Config) (cache1 : Cache) (now : Int) (env : ReadEnv)
    (uri : String) :
    ∀ e ∈ (approvalPath cfg cache1 now env uri).events,
      e = .audit .requestPending ∨ e ∈ sendEvents 0 env.channelSends
      ∨ (∃ j b, e = .channelUpdate j b) ∨ e ∈ apTail := by
  intro e he
  by_cases hg : ((sendRefs 0 env.channelSends).isEmpty && !env.channelSends.isEmpty) = true
  · simp only [approvalPath, hg, if_true, List.mem_cons] at he
    rcases he with he | he
    · exact Or.inl he
    · exact Or.inr (Or.inl he)
  · cases happr : env.approval with
    | resolved b =>
      cases b with
      | true =>
        cases hf : env.fetch true with
        | ok v =>
          simp only [approvalPath, hg, if_false, happr, hf, Bool.false_eq_true,
            List.mem_append, List.mem_cons, List.mem_map, List.not_mem_nil, or_false] at he
          rcases he with ((he | he) | he) | he
          · exact Or.inl he
          · exact Or.inr (Or.inl he)
          · rcases he with ⟨j, _, hj⟩
            exact Or.inr (Or.inr (Or.inl ⟨j, true, hj.symm⟩))
          · right; right; right
            simp only [apTail, List.mem_cons, List.not_mem_nil, or_false]
            tauto
        | err m =>
          simp only [approvalPath, hg, if_false, happr, hf, Bool.false_eq_true,
            List.mem_append, List.mem_cons, List.mem_map, List.not_mem_nil, or_false] at he
          rcases he with ((he | he) | he) | he
          · exact Or.inl he
          · exact Or.inr (Or.inl he)
          · rcases he with ⟨j, _, hj⟩
            exact Or.inr (Or.inr (Or.inl ⟨j, true, hj.symm⟩))
          · right; right; right
            simp only [apTail, List.mem_cons, List.not_mem_nil, or_false]
            tauto
      | false =>
        simp only [approvalPath, hg, if_false, happr, Bool.false_eq_true,
          List.mem_append, List.mem_cons, List.mem_map, List.not_mem_nil, or_false] at he
        rcases he with ((he | he) | he) | he
        · exact Or.inl he
        · exact Or.inr (Or.inl he)
        · rcases he with ⟨j, _, hj⟩
          exact Or.inr (Or.inr (Or.inl ⟨j, false, hj.symm⟩))
        · right; right; right
          simp only [apTail, List.mem_cons, List.not_mem_nil, or_false]
          tauto
    | timedOut msg =>
      simp only [approvalPath, hg, if_false, happr, Bool.false_eq_true,
        List.mem_append, List.mem_cons, List.mem_map, List.not_mem_nil, or_false] at he
      rcases he with ((he | he) | he) | he
      · exact Or.inl he
      · exact Or.inr (Or.inl he)
      · rcases he with ⟨j, _, hj⟩
        exact Or.inr (Or.inr (Or.inl ⟨j, false, hj.symm⟩))
      · right; right; right
        simp only [apTail, List.mem_cons, List.not_mem_nil, or_false]
        tauto

theorem approvalPath_providerRead (cfg : Config) (cache1 : Cache) (now : Int)
    (env : ReadEnv) (uri : String) (b : Bool)
    (h : Event.providerRead b ∈ (approvalPath cfg cache1 now env uri).events) :
    b = true := by
  rcases approvalPath_forms cfg cache1 now env uri _ h with h1 | h1 | ⟨j, c, h1⟩ | h1
  · simp at h1
  · exact absurd h1 (sendEvents_no_providerRead env.channelSends 0 b)
  · simp at h1
  · simpa [apTail] using h1

theorem approvalPath_no_cacheHit (cfg : Config) (cache1 : Cache) (now : Int)
    (env : ReadEnv) (uri : String) :
    Event.audit .cacheHit ∉ (approvalPath cfg cache1 now env uri).events := by
  intro h
  rcases approvalPath_forms cfg cache1 now env uri _ h with h1 | h1 | ⟨j, c, h1⟩ | h1
  · simp at h1
  · exact sendEvents_no_cacheHit env.channelSends 0 h1
  · simp at h1
  · simp [apTail] at h1

theorem gatedRead_providerRead (cfg : Config) (cache : Cache) (now : Int)
    (env : ReadEnv) (uri : String) (reason : Option String) (p : ParsedUri) (b : Bool)
    (h : Event.providerRead b ∈ (gatedRead cfg cache now env uri reason p).events) :
    b = true := by
  unfold gatedRead at h
  split at h
  · simp at h
  · split at h
    · unfold standingRead at h
      cases hf : env.fetch true <;> simp [hf] at h <;> exact h
    · split at h
      · simp at h
      · exact approvalPath_providerRead cfg _ now env uri b h

theorem pollTick_other_file (fsys : FileSys) (reg : Registry) (id : String)
    (name : String) (hname : name ≠ id ++ ".json") :
    (pollTick fsys reg id).1.lookup name = fsys.lookup name := by
  simp only [pollTick]
  cases hf : fsys.lookup (id ++ ".json") with
  | none => rfl
  | some c =>
    cases c with
    | none => rfl
    | some v =>
      simp only
      exact lookup_filter_other fsys (id ++ ".json") name hname

theorem scanPending_other_file (ids : List String) (fsys : FileSys) (reg : Registry)
    (name : String) (hname : ∀ pid ∈ ids, name ≠ pid ++ ".json") :
    (scanPending fsys reg ids).1.lookup name = fsys.lookup name := by
  induction ids generalizing fsys reg with
  | nil => rfl
  | cons pid rest ih =>
    simp only [scanPending]
    have h1 := pollTick_other_file fsys reg pid name (hname pid (by simp))
    have h2 := ih (pollTick fsys reg pid).1 (pollTick fsys reg pid).2.1
      (fun q hq => hname q (by simp [hq]))
    rw [← h1]
    exact h2

theorem insertByDone_append (ds : List Nat) (i : Nat) (acc : List Nat)
    (h : ∀ j ∈ acc, ds.getD j 0 ≤ ds.getD i 0) :
    insertByDone ds i acc = acc ++ [i] := by
  induction acc with
  | nil => rfl
  | cons j rest ih =>
    simp only [insertByDone]
    rw [if_pos (h j (by simp))]
    simp [ih (fun q hq => h q (by simp [hq]))]

/-! ## Claims -/

/-- C1: for every read request, a read whose container is classified open
never invokes the provider's read with the elevated flag
(`useServiceAccount`) set, and every gated read that reaches the provider
(standing-approval path or post-approval path) always invokes it with the
elevated flag set. -/
theorem claim_C1_elevation (cfg : Config) (cache : Cache) (now : Int) (env : ReadEnv)
    (uri : String) (reason : Option String) (p : ParsedUri)
    (hp : env.parsed = some p) :
    (vaultSetHas cfg.openVaults (strToLower p.vault) = true →
        ∀ b, Event.providerRead b ∈ (handleRead cfg cache now env uri reason).events →
          b = false)
  ∧ (vaultSetHas cfg.openVaults (strToLower p.vault) = false →
     vaultSetHas cfg.gatedVaults (strToLower p.vault) = true →
        ∀ b, Event.providerRead b ∈ (handleRead cfg cache now env uri reason).events →
          b = true) := by
  constructor
  · intro hopen b hb
    by_cases hu : uri.isEmpty = true
    · simp [handleRead, hu] at hb
    · simp only [handleRead, hu, Bool.false_eq_true, if_false, hp, hopen, if_true] at hb
      unfold openRead at hb
      cases hf : env.fetch false <;> simp [hf] at hb <;> exact hb
  · intro hopen hgated b hb
    by_cases hu : uri.isEmpty = true
    · simp [handleRead, hu] at hb
    · simp only [handleRead, hu, Bool.false_eq_true, if_false, hp, hopen, hgated,
        if_true] at hb
      exact gatedRead_providerRead cfg cache now env uri reason p b hb

/-- C1 witness: on an open-vault read at a concrete input, every provider
invocation has the elevated flag unset. -/
theorem claim_C1_witness :
    (⟨some ⟨"pub", "k", "f"⟩, fun _ => .ok "v", [], .resolved true⟩ : ReadEnv).parsed =
      some ⟨"pub", "k", "f"⟩
  ∧ vaultSetHas ["pub"] (strToLower "pub") = true
  ∧ (∀ b, Event.providerRead b ∈
      (handleRead ⟨["pub"], ["sec"], [], 0⟩ [] 0
        ⟨some ⟨"pub", "k", "f"⟩, fun _ => .ok "v", [], .resolved true⟩
        "op://pub/k/f" none).events → b = false) :=
  ⟨rfl, by decide,
    (claim_C1_elevation ⟨["pub"], ["sec"], [], 0⟩ [] 0
      ⟨some ⟨"pub", "k", "f"⟩, fun _ => .ok "v", [], .resolved true⟩
      "op://pub/k/f" none ⟨"pub", "k", "f"⟩ rfl).1 (by decide)⟩

/-- C2: resolving a pending request is idempotent and exactly-once: a
resolve of an unknown id returns false with no side effects (and the
/callback route then answers ok with resolved false); after a successful
resolve the entry is gone, so a second resolve returns false with no
events; the registry entry is removed before the one-shot resolver fires,
and the resolver fires exactly once. -/
theorem claim_C2_resolve_exactly_once (reg : Registry) (id : String) (a a' : JSValue) :
    (reg.lookup id = none →
        resolveApproval reg id a = (false, reg, [])
        ∧ (id.isEmpty = false →
            handleCallback reg (some ⟨id, a⟩) = (.okResolved false, reg, [])))
  ∧ (∀ e, reg.lookup id = some e →
        (resolveApproval reg id a).1 = true
        ∧ (resolveApproval reg id a).2.1.lookup id = none
        ∧ resolveApproval (resolveApproval reg id a).2.1 id a' =
            (false, (resolveApproval reg id a).2.1, [])
        ∧ (∃ i j, i < j
            ∧ (resolveApproval reg id a).2.2.get? i = some (.removeEntry id)
            ∧ (resolveApproval reg id a).2.2.get? j =
                some (.fireResolver id a.truthy))
        ∧ countFires (resolveApproval reg id a).2.2 = 1) := by
  constructor
  · intro hnone
    refine ⟨by simp [resolveApproval, hnone], ?_⟩
    intro hne
    simp [handleCallback, hne, resolveApproval, hnone]
  · intro e hmem
    have h1 : resolveApproval reg id a =
        (true, regDelete reg id,
          [.clearTimer id, .clearPoll id, .removeEntry id,
           .unlinkFile (id ++ ".json"), .fireResolver id a.truthy]) := by
      simp [resolveApproval, cleanup, hmem]
    have h2 : (regDelete reg id).lookup id = none := lookup_filter_self reg id
    refine ⟨by rw [h1], by rw [h1]; exact h2, ?_, ?_, ?_⟩
    · rw [h1]
      simp only [resolveApproval, h2]
    · exact ⟨2, 4, by omega, by rw [h1]; rfl, by rw [h1]; rfl⟩
    · rw [h1]
      simp [countFires]

/-- C2 witness: a concrete pending id is resolved with exactly one
resolver firing. -/
theorem claim_C2_witness :
    ([("a1b2c3d4e5f60718", (⟨0⟩ : PendingEntry))] : Registry).lookup "a1b2c3d4e5f60718" =
      some ⟨0⟩
  ∧ countFires
      (resolveApproval [("a1b2c3d4e5f60718", ⟨0⟩)] "a1b2c3d4e5f60718" (.bool true)).2.2 = 1 :=
  ⟨by decide,
    ((claim_C2_resolve_exactly_once [("a1b2c3d4e5f60718", ⟨0⟩)] "a1b2c3d4e5f60718"
      (.bool true) (.bool false)).2 ⟨0⟩ (by decide)).2.2.2.2⟩

/-- C3: a poll scan that finds `<requestId>.json` for a currently pending
id reads and parses it, unlinks it strictly before the resolver fires,
leaves every other file untouched, and a subsequent scan never observes
the file again; a whole scan leaves every file in place whose name does
not correspond to a currently pending id. -/
theorem claim_C3_pending_drop (fsys : FileSys) (reg : Registry) (id : String)
    (v : JSValue) (e : PendingEntry)
    (hfile : fsys.lookup (id ++ ".json") = some (some v))
    (hpend : reg.lookup id = some e) :
    (pollTick fsys reg id).1.lookup (id ++ ".json") = none
  ∧ (∀ name, name ≠ id ++ ".json" →
      (pollTick fsys reg id).1.lookup name = fsys.lookup name)
  ∧ (∃ i j, i < j
      ∧ (pollTick fsys reg id).2.2.get? i = some (.unlinkFile (id ++ ".json"))
      ∧ (pollTick fsys reg id).2.2.get? j = some (.fireResolver id v.truthy))
  ∧ pollTick (pollTick fsys reg id).1 (pollTick fsys reg id).2.1 id =
      ((pollTick fsys reg id).1, (pollTick fsys reg id).2.1, [])
  ∧ (∀ (ids : List String) (name : String), (∀ pid ∈ ids, name ≠ pid ++ ".json") →
      (scanPending fsys reg ids).1.lookup name = fsys.lookup name) := by
  have h1 : pollTick fsys reg id =
      (fsDelete fsys (id ++ ".json"), regDelete reg id,
        [.readFile (id ++ ".json"), .unlinkFile (id ++ ".json"), .clearPoll id,
         .clearTimer id, .clearPoll id, .removeEntry id,
         .unlinkFile (id ++ ".json"), .fireResolver id v.truthy]) := by
    simp [pollTick, hfile, resolveApproval, cleanup, hpend]
  have hfs : (fsDelete fsys (id ++ ".json")).lookup (id ++ ".json") = none :=
    lookup_filter_self fsys (id ++ ".json")
  refine ⟨by rw [h1]; exact hfs, ?_, ?_, ?_, ?_⟩
  · intro name hname
    exact pollTick_other_file fsys reg id name hname
  · exact ⟨1, 7, by omega, by rw [h1]; rfl, by rw [h1]; rfl⟩
  · rw [h1]
    simp only [pollTick, hfs]
  · intro ids name hname
    exact scanPending_other_file ids fsys reg name hname

/-- C3 witness: a concrete drop file for a concrete pending id is gone
after the tick. -/
theorem claim_C3_witness :
    ([("a1b2.json", some (JSValue.bool true))] : FileSys).lookup ("a1b2" ++ ".json") =
      some (some (.bool true))
  ∧ ([("a1b2", (⟨0⟩ : PendingEntry))] : Registry).lookup "a1b2" = some ⟨0⟩
  ∧ (pollTick [("a1b2.json", some (.bool true))] [("a1b2", ⟨0⟩)] "a1b2").1.lookup
      ("a1b2" ++ ".json") = none :=
  ⟨by decide, by decide,
    (claim_C3_pending_drop [("a1b2.json", some (.bool true))] [("a1b2", ⟨0⟩)] "a1b2"
      (.bool true) ⟨0⟩ (by decide) (by decide)).1⟩

/-- C4: a read on a gated container with an absent or empty reason
returns the reason-required error, emits no audit event and no channel
prompt, and leaves the cache unchanged. -/
theorem claim_C4_reason_required (cfg : Config) (cache : Cache) (now : Int)
    (env : ReadEnv) (uri : String) (reason : Option String) (p : ParsedUri)
    (hu : uri.isEmpty = false) (hp : env.parsed = some p)
    (hopen : vaultSetHas cfg.openVaults (strToLower p.vault) = false)
    (hgated : vaultSetHas cfg.gatedVaults (strToLower p.vault) = true)
    (hr : reasonFalsy reason = true) :
    handleRead cfg cache now env uri reason =
      ⟨.error "Reason is REQUIRED for gated vault items. Pass --reason \"...\"",
        [], cache⟩ := by
  simp [handleRead, hu, hp, hopen, hgated, gatedRead, hr]

/-- C4 witness: a concrete gated read without a reason yields the error
and an empty trace. -/
theorem claim_C4_witness :
    ("op://sec/k/f" : String).isEmpty = false
  ∧ vaultSetHas ["pub"] (strToLower "sec") = false
  ∧ vaultSetHas ["sec"] (strToLower "sec") = true
  ∧ reasonFalsy none = true
  ∧ handleRead ⟨["pub"], ["sec"], [], 0⟩ [] 0
      ⟨some ⟨"sec", "k", "f"⟩, fun _ => .ok "v", [true], .resolved true⟩
      "op://sec/k/f" none =
      ⟨.error "Reason is REQUIRED for gated vault items. Pass --reason \"...\"",
        [], []⟩ :=
  ⟨by decide, by decide, by decide, by decide,
    claim_C4_reason_required ⟨["pub"], ["sec"], [], 0⟩ [] 0
      ⟨some ⟨"sec", "k", "f"⟩, fun _ => .ok "v", [true], .resolved true⟩
      "op://sec/k/f" none ⟨"sec", "k", "f"⟩ (by decide) rfl (by decide) (by decide)
      (by decide)⟩

/-- C5: standing-approval matching: an empty reason never matches; rules
are scanned in configuration order and the first rule wins whose item
equals the request item and whose pattern matches the reason exactly or,
for a pattern ending in `*`, as a prefix of the reason; the pattern
`foo*` matches `foo`, `foobar` and `foo:x` and does not match `fo` or
`barfoo`. -/
theorem claim_C5_standing_match (rules : List Rule) (item reason : String) :
    matchesStandingApproval rules item "" = none
  ∧ matchesStandingApproval rules item reason =
      (if reason.isEmpty then none else rules.find? (ruleMatches item reason))
  ∧ matchesStandingApproval [⟨"k", "foo*", "n"⟩] "k" "foo" = some ⟨"k", "foo*", "n"⟩
  ∧ matchesStandingApproval [⟨"k", "foo*", "n"⟩] "k" "foobar" = some ⟨"k", "foo*", "n"⟩
  ∧ matchesStandingApproval [⟨"k", "foo*", "n"⟩] "k" "foo:x" = some ⟨"k", "foo*", "n"⟩
  ∧ matchesStandingApproval [⟨"k", "foo*", "n"⟩] "k" "fo" = none
  ∧ matchesStandingApproval [⟨"k", "foo*", "n"⟩] "k" "barfoo" = none := by
  refine ⟨by simp [matchesStandingApproval, (by decide : ("" : String).isEmpty = true)],
    ?_, by decide, by decide, by decide, by decide, by decide⟩
  by_cases h : reason.isEmpty
  · simp [matchesStandingApproval, h]
  · simp [matchesStandingApproval, h, scanRules_eq_find]

/-- C6: a non-positive cache TTL fully disables the cache: every lookup
returns absent with the cache unchanged, every store is a no-op, and no
`cache_hit` audit event can be produced by any read request. -/
theorem claim_C6_ttl_disables (cfg : Config) (httl : cfg.cacheTTL ≤ 0) :
    (∀ (c : Cache) (now : Int) (uri : String), getCached cfg.cacheTTL c now uri = (none, c))
  ∧ (∀ (c : Cache) (now : Int) (uri v : String), setCache cfg.cacheTTL c now uri v = c)
  ∧ (∀ (cache : Cache) (now : Int) (env : ReadEnv) (uri : String) (reason : Option String),
      Event.audit .cacheHit ∉ (handleRead cfg cache now env uri reason).events) := by
  have hget : ∀ (c : Cache) (now : Int) (uri : String),
      getCached cfg.cacheTTL c now uri = (none, c) := by
    intro c now uri; simp [getCached, httl]
  refine ⟨hget, by intro c now uri v; simp [setCache, httl], ?_⟩
  intro cache now env uri reason h
  by_cases hu : uri.isEmpty = true
  · simp [handleRead, hu] at h
  · cases hp : env.parsed with
    | none => simp [handleRead, hu, hp] at h
    | some p =>
      by_cases hopen : vaultSetHas cfg.openVaults (strToLower p.vault) = true
      · simp only [handleRead, hu, Bool.false_eq_true, if_false, hp, hopen, if_true] at h
        unfold openRead at h
        cases hf : env.fetch false <;> simp [hf] at h
      · by_cases hgated : vaultSetHas cfg.gatedVaults (strToLower p.vault) = true
        · have hopen' : vaultSetHas cfg.openVaults (strToLower p.vault) = false := by
            simpa using hopen
          simp only [handleRead, hu, Bool.false_eq_true, if_false, hp, hopen', hgated,
            if_true] at h
          unfold gatedRead at h
          split at h
          · simp at h
          · split at h
            · unfold standingRead at h
              cases hf : env.fetch true <;> simp [hf] at h
            · rw [hget cache now uri] at h
              simp only at h
              exact approvalPath_no_cacheHit cfg cache now env uri h
        · have hopen' : vaultSetHas cfg.openVaults (strToLower p.vault) = false := by
            simpa using hopen
          have hgated' : vaultSetHas cfg.gatedVaults (strToLower p.vault) = false := by
            simpa using hgated
          simp [handleRead, hu, hp, hopen', hgated'] at h

/-- C6 witness: with TTL zero a concrete lookup of a populated cache is
absent and leaves the cache unchanged. -/
theorem claim_C6_witness :
    (⟨["pub"], ["sec"], [], 0⟩ : Config).cacheTTL ≤ 0
  ∧ getCached (⟨["pub"], ["sec"], [], 0⟩ : Config).cacheTTL
      [("u", ⟨"v", 99⟩)] 5 "u" = (none, [("u", ⟨"v", 99⟩)]) :=
  ⟨by decide,
    (claim_C6_ttl_disables ⟨["pub"], ["sec"], [], 0⟩ (by decide)).1 [("u", ⟨"v", 99⟩)] 5 "u"⟩

/-- C7 counterexample: on one connection, a request whose handler
completes at tick 2 followed by a request whose handler completes at
tick 1 has its responses written in the order second-then-first — not in
request order. -/
theorem claim_C7_counterexample :
    responseOrder [2, 1] = [1, 0] ∧ responseOrder [2, 1] ≠ List.range 2 := by decide

/-- C7 (amended): responses on one connection are written in
handler-completion order (earlier dispatch first among simultaneous
completions); request order is preserved exactly when the completion
ticks are non-decreasing in dispatch order — in particular when each
handler completes before the next request's does, as in sequential,
non-pipelined use. -/
theorem claim_C7_completion_order (ds : List Nat) (hp : ds.Pairwise (· ≤ ·)) :
    responseOrder ds = List.range ds.length := by
  have hg := List.pairwise_iff_getElem.mp hp
  have hmono : ∀ j k, j ≤ k → k < ds.length → ds.getD j 0 ≤ ds.getD k 0 := by
    intro j k hjk hk
    rcases Nat.eq_or_lt_of_le hjk with rfl | hlt
    · exact le_refl _
    · have hj : j < ds.length := Nat.lt_trans hlt hk
      have hr := hg j k hj hk hlt
      rwa [List.getD_eq_getElem ds 0 hj, List.getD_eq_getElem ds 0 hk]
  suffices h : ∀ m, m ≤ ds.length →
      (List.range m).foldl (fun acc i => insertByDone ds i acc) [] = List.range m by
    exact h ds.length le_rfl
  intro m hm
  induction m with
  | zero => rfl
  | succ n ih =>
    rw [List.range_succ, List.foldl_append, ih (Nat.le_of_succ_le hm)]
    simp only [List.foldl_cons, List.foldl_nil]
    rw [insertByDone_append ds n (List.range n)
      (fun j hj => hmono j n (Nat.le_of_lt (List.mem_range.mp hj)) (by omega))]

/-- C7 witness: with non-decreasing completion ticks the responses come
back in request order. -/
theorem claim_C7_witness :
    ([1, 2, 2] : List Nat).Pairwise (· ≤ ·)
  ∧ responseOrder [1, 2, 2] = List.range 3 :=
  ⟨by decide, claim_C7_completion_order [1, 2, 2] (by decide)⟩

/-- C8 counterexample: the `status` response object does not carry a
field named `uptimeSeconds`; its field list differs from the claimed
one. -/
theorem claim_C8_counterexample :
    handleRequest ⟨3, 2, 7, ["telegram"], "onepassword"⟩ "status" =
      .obj (statusFields ⟨3, 2, 7, ["telegram"], "onepassword"⟩)
  ∧ "uptimeSeconds" ∉ (statusFields ⟨3, 2, 7, ["telegram"], "onepassword"⟩).map Prod.fst
  ∧ (statusFields ⟨3, 2, 7, ["telegram"], "onepassword"⟩).map Prod.fst ≠
      ["status", "pending", "cacheSize", "uptimeSeconds", "channels", "provider"] := by
  refine ⟨rfl, by decide, by decide⟩

/-- C8 (amended): for every `status` request, the response object
contains exactly the fields `status` (value "running"), `pending`,
`cacheSize`, `uptime` (whole seconds), `channels` (the list of channel
names) and `provider` (the provider name). -/
theorem claim_C8_status_fields (ctx : DaemonCtx) :
    handleRequest ctx "status" = .obj (statusFields ctx)
  ∧ (statusFields ctx).map Prod.fst =
      ["status", "pending", "cacheSize", "uptime", "channels", "provider"]
  ∧ (statusFields ctx).lookup "status" = some (.str "running")
  ∧ (statusFields ctx).lookup "pending" = some (.num ctx.pending)
  ∧ (statusFields ctx).lookup "cacheSize" = some (.num ctx.cacheSize)
  ∧ (statusFields ctx).lookup "uptime" = some (.num ctx.uptime)
  ∧ (statusFields ctx).lookup "channels" = some (.arr ctx.channelNames)
  ∧ (statusFields ctx).lookup "provider" = some (.str ctx.providerName) := by
  exact ⟨rfl, rfl, rfl, rfl, rfl, rfl, rfl, rfl⟩

/-- C9: a container configured in both the open and the gated vault list
is handled by the open path: the open check runs first, so the request is
served by `openRead` and no channel prompt is sent. -/
theorem claim_C9_open_precedence (cfg : Config) (cache : Cache) (now : Int)
    (env : ReadEnv) (uri : String) (reason : Option String) (p : ParsedUri)
    (hu : uri.isEmpty = false) (hp : env.parsed = some p)
    (hopen : vaultSetHas cfg.openVaults (strToLower p.vault) = true)
    (hgated : vaultSetHas cfg.gatedVaults (strToLower p.vault) = true) :
    handleRead cfg cache now env uri reason = openRead env cache
  ∧ (∀ i, Event.channelSend i ∉ (handleRead cfg cache now env uri reason).events) := by
  have heq : handleRead cfg cache now env uri reason = openRead env cache := by
    simp [handleRead, hu, hp, hopen]
  refine ⟨heq, ?_⟩
  intro i h
  rw [heq] at h
  unfold openRead at h
  cases hf : env.fetch false <;> simp [hf] at h

/-- C9 witness: a vault listed in both sets is served by the open path at
a concrete input. -/
theorem claim_C9_witness :
    vaultSetHas ["dup"] (strToLower "dup") = true
  ∧ handleRead ⟨["dup"], ["dup"], [], 0⟩ [] 0
      ⟨some ⟨"dup", "k", "f"⟩, fun _ => .ok "v", [true], .resolved true⟩
      "op://dup/k/f" (some "why") =
      openRead ⟨some ⟨"dup", "k", "f"⟩, fun _ => .ok "v", [true], .resolved true⟩ [] :=
  ⟨by decide,
    (claim_C9_open_precedence ⟨["dup"], ["dup"], [], 0⟩ [] 0
      ⟨some ⟨"dup", "k", "f"⟩, fun _ => .ok "v", [true], .resolved true⟩
      "op://dup/k/f" (some "why") ⟨"dup", "k", "f"⟩ (by decide) rfl (by decide)
      (by decide)).1⟩

/-- C10: the /callback route coerces `approved` to a boolean: for a
pending id, any body resolves the request, the resolver fires exactly
once with the JS truthiness of the `approved` value (so any falsy value,
including an absent field, is a denial and any truthy value an
approval), and the response is ok with resolved true. -/
theorem claim_C10_callback_coercion (reg : Registry) (id : String) (e : PendingEntry)
    (a : JSValue) (hne : id.isEmpty = false) (hmem : reg.lookup id = some e) :
    handleCallback reg (some ⟨id, a⟩) =
      (.okResolved true, regDelete reg id,
        [.clearTimer id, .clearPoll id, .removeEntry id,
         .unlinkFile (id ++ ".json"), .fireResolver id a.truthy])
  ∧ countFires (handleCallback reg (some ⟨id, a⟩)).2.2 = 1 := by
  have h1 : handleCallback reg (some ⟨id, a⟩) =
      (.okResolved true, regDelete reg id,
        [.clearTimer id, .clearPoll id, .removeEntry id,
         .unlinkFile (id ++ ".json"), .fireResolver id a.truthy]) := by
    simp [handleCallback, hne, resolveApproval, cleanup, hmem]
  exact ⟨h1, by rw [h1]; simp [countFires]⟩

/-- C10 witness: a callback body with the `approved` field absent
resolves a concrete pending id as a denial, with the response still ok
and resolved. -/
theorem claim_C10_witness :
    ("a1b2c3d4e5f60718" : String).isEmpty = false
  ∧ ([("a1b2c3d4e5f60718", (⟨0⟩ : PendingEntry))] : Registry).lookup "a1b2c3d4e5f60718" =
      some ⟨0⟩
  ∧ handleCallback [("a1b2c3d4e5f60718", ⟨0⟩)] (some ⟨"a1b2c3d4e5f60718", .undef⟩) =
      (.okResolved true, regDelete [("a1b2c3d4e5f60718", ⟨0⟩)] "a1b2c3d4e5f60718",
        [.clearTimer "a1b2c3d4e5f60718", .clearPoll "a1b2c3d4e5f60718",
         .removeEntry "a1b2c3d4e5f60718",
         .unlinkFile ("a1b2c3d4e5f60718" ++ ".json"),
         .fireResolver "a1b2c3d4e5f60718" false]) :=
  ⟨by decide, by decide,
    (claim_C10_callback_coercion [("a1b2c3d4e5f60718", ⟨0⟩)] "a1b2c3d4e5f60718" ⟨0⟩
      .undef (by decide) (by decide)).1⟩

end AgentGate
